import Mathlib

/-!
Verification development for the query-logging and rolling-statistics engine
of the AdGuardHome DNS resolver (packages `querylog` and `dnsforward`/`home`).

The Go sources are shallowly embedded: stateful methods become pure functions
on explicit state values, fallible operations return `Except`/`Option`
(`Option.none` marks a Go runtime panic), disk-I/O outcomes are supplied by an
explicit environment value, times are integer Unix seconds, and byte strings
are lists of naturals.
-/

namespace AdGuard

/-- One byte string (the Go `[]byte`), modelled as a list of naturals. -/
abbrev Bytes := List Nat

/-- Result metadata of a log entry; only the `IsFiltered` flag is used by the
embedded code (`entry.Result.IsFiltered`). -/
structure logResult where
  IsFiltered : Bool
deriving DecidableEq

/-- One query-log record (the Go `logEntry`): timestamp (Unix seconds), raw
question and answer payloads, client IP string, result flags and elapsed
duration. -/
structure logEntry where
  Time : Int
  Question : Bytes
  Answer : Bytes
  IP : String
  Result : logResult
  Elapsed : Nat
deriving DecidableEq

/-- One parsed DNS question; only the queried name is used by the code. -/
structure DNSQuestion where
  Name : String
deriving DecidableEq

/-- A parsed DNS message (the part of `dns.Msg` the code reads). -/
structure DNSMsg where
  Question : List DNSQuestion
deriving DecidableEq

/-- The Go `strings.TrimSuffix`: removes one occurrence of `suffix` from the
end of `s` when present (expressed over the character list). -/
def trimSuffix (s suffix : String) : String :=
  if suffix.toList.isSuffixOf s.toList then
    String.mk (s.toList.take (s.toList.length - suffix.toList.length))
  else s

/-- The Go `strings.ToLower`, applied per character (the query names the code
lowercases are ASCII domain names). -/
def toLowerStr (s : String) : String :=
  String.mk (s.toList.map Char.toLower)

/-- Truncated whole hours between a timestamp and `now`, the embedding of
`int(now.Sub(entry.Time).Hours())`: Go float-to-int conversion truncates
toward zero, which `Int.div` matches on exact second arithmetic. -/
def hoursBetween (t now : Int) : Int := Int.tdiv (now - t) 3600

/-! ### Entry codec

Modelled from the spec: the on-disk record codec (`encoding/json` over the
`logEntry` struct, declared outside `src/`) serializes each record as one
self-delimiting line; numeric and duration fields use a fixed, unambiguous
representation so that round-tripping is exact.  The model serializes each
record to a flat list of naturals with length-prefixed framing for the
variable-size fields. -/

/-- Modelled from the spec: fixed sign-magnitude representation of an integer
field inside one encoded record. -/
def encodeInt (i : Int) : List Nat :=
  if 0 ≤ i then [0, i.toNat] else [1, (-i).toNat]

/-- Modelled from the spec: length-prefixed framing of a byte-string field. -/
def encodeBytes (bs : Bytes) : List Nat := bs.length :: bs

/-- Modelled from the spec: length-prefixed framing of a string field. -/
def encodeStr (s : String) : List Nat :=
  encodeBytes (s.toList.map Char.toNat)

/-- Modelled from the spec: serialization of one `logEntry` to one
self-delimiting record. -/
def encodeEntry (e : logEntry) : List Nat :=
  encodeInt e.Time ++ encodeBytes e.Question ++ encodeBytes e.Answer ++
    encodeStr e.IP ++ [if e.Result.IsFiltered then 1 else 0, e.Elapsed]

/-- Reads one integer field; fails on a truncated or malformed record. -/
def readIntVal (l : List Nat) : Option (Int × List Nat) :=
  match l with
  | 0 :: m :: rest => some ((m : Int), rest)
  | 1 :: m :: rest => some (-(m : Int), rest)
  | _ => none

/-- Reads one length-prefixed byte-string field; fails when truncated. -/
def readBytes (l : List Nat) : Option (Bytes × List Nat) :=
  match l with
  | [] => none
  | n :: rest => if rest.length < n then none else some (rest.take n, rest.drop n)

/-- Reads one length-prefixed string field; fails when truncated. -/
def readStr (l : List Nat) : Option (String × List Nat) :=
  match readBytes l with
  | none => none
  | some (bs, rest) => some (String.mk (bs.map Char.ofNat), rest)

/-- Modelled from the spec: deserialization of one record; a truncated or
malformed record yields `none` (the typed decode error). -/
def decodeEntry (l : List Nat) : Option logEntry :=
  match readIntVal l with
  | none => none
  | some (t, r1) =>
    match readBytes r1 with
    | none => none
    | some (qs, r2) =>
      match readBytes r2 with
      | none => none
      | some (ans, r3) =>
        match readStr r3 with
        | none => none
        | some (ip, r4) =>
          match r4 with
          | [f, el] => some ⟨t, qs, ans, ip, ⟨f == 1⟩, el⟩
          | _ => none

/-- Decodes a sequence of records; fails as soon as one record fails. -/
def decodeAllRecords : List (List Nat) → Option (List logEntry)
  | [] => some []
  | r :: rs =>
    match decodeEntry r with
    | none => none
    | some e =>
      match decodeAllRecords rs with
      | none => none
      | some es => some (e :: es)

/-! ### DNS question payload

Modelled from the spec: the raw question bytes are wire-format encoded and
treated as opaque, reparsed only to extract the queried name; `dns.Msg.Unpack`
(external library) fails on malformed payloads.  The model uses a simple
count-prefixed wire format. -/

/-- Modelled from the spec: packs one question into wire format. -/
def packQuestion (q : DNSQuestion) : List Nat :=
  q.Name.toList.length :: q.Name.toList.map Char.toNat

/-- Modelled from the spec: packs a message into wire format. -/
def packMsg (m : DNSMsg) : List Nat :=
  m.Question.length :: (m.Question.map packQuestion).flatten

/-- Reads one wire-format question; fails when truncated. -/
def readQuestion (l : List Nat) : Option (DNSQuestion × List Nat) :=
  match l with
  | [] => none
  | n :: rest =>
    if rest.length < n then none
    else some (⟨String.mk ((rest.take n).map Char.ofNat)⟩, rest.drop n)

/-- Reads a fixed number of wire-format questions. -/
def readQuestions : Nat → List Nat → Option (List DNSQuestion × List Nat)
  | 0, l => some ([], l)
  | n + 1, l =>
    match readQuestion l with
    | none => none
    | some (q, rest) =>
      match readQuestions n rest with
      | none => none
      | some (qs, rest2) => some (q :: qs, rest2)

/-- Modelled from the spec: `dns.Msg.Unpack` over the question payload; a
malformed or truncated payload yields a typed error. -/
def unpackMsg (b : Bytes) : Except String DNSMsg :=
  match b with
  | [] => Except.error "truncated message"
  | n :: rest =>
    match readQuestions n rest with
    | none => Except.error "failed to unpack question"
    | some (qs, rest2) =>
      if rest2.length = 0 then Except.ok ⟨qs⟩ else Except.error "trailing bytes"

/-! ### Bounded LRU counter map (the `gcache` LRU cache holding int counts)

`gcache.New(size).LRU().Build()` is embedded as a recency-ordered association
list (most recently used first) with capacity `cap`: `Get` promotes the key,
`Set` updates-and-promotes an existing key or inserts at the front, evicting
the least recently used pair when the cache is full. -/

/-- A bounded LRU map from string keys to integer counts; `entries` is ordered
most recently used first. -/
structure LRUCache where
  cap : Nat
  entries : List (String × Int)
deriving DecidableEq

/-- The Go `gcache.New(size).LRU().Build()`. -/
def gcacheNew (size : Nat) : LRUCache := ⟨size, []⟩

/-- Cache lookup (`gcache.Get`): returns the value when present and promotes
the key to most recently used; `none` is the `KeyNotFoundError` case. -/
def LRUCache.get (c : LRUCache) (key : String) : Option Int × LRUCache :=
  match List.find? (fun kv => kv.1 == key) c.entries with
  | some kv =>
    (some kv.2, ⟨c.cap, kv :: List.filter (fun kv2 => !(kv2.1 == key)) c.entries⟩)
  | none => (none, c)

/-- Cache write (`gcache.Set`): updates and promotes an existing key, or
inserts a new key at the front, evicting the least recently used pair when
the cache is at capacity. -/
def LRUCache.set (c : LRUCache) (key : String) (v : Int) : LRUCache :=
  if List.any c.entries (fun kv => kv.1 == key) then
    ⟨c.cap, (key, v) :: List.filter (fun kv2 => !(kv2.1 == key)) c.entries⟩
  else if c.entries.length < c.cap then
    ⟨c.cap, (key, v) :: c.entries⟩
  else
    ⟨c.cap, (key, v) :: c.entries.dropLast⟩

/-- The count observable for a key: the stored value, or 0 when the key is
absent (the behaviour of `lockedGetValue`, which maps `KeyNotFoundError`
to 0). -/
def lookupInt (c : LRUCache) (key : String) : Int :=
  match List.find? (fun kv => kv.1 == key) c.entries with
  | some kv => kv.2
  | none => 0

/-- Whether a key is currently stored in the cache. -/
def containsKey (c : LRUCache) (key : String) : Bool :=
  c.entries.any (fun kv => kv.1 == key)

/-- The Go `hourTop.incrementValue(key, cache)`: get the current count
(`KeyNotFoundError` means absent, store 1), otherwise store count + 1.  The
Go error returns (cache failure, non-int cached value) cannot occur in the
typed embedding, so the function is total. -/
def incrementValue (c : LRUCache) (key : String) : LRUCache :=
  match LRUCache.get c key with
  | (some v, c2) => LRUCache.set c2 key (v + 1)
  | (none, c2) => LRUCache.set c2 key 1

/-! ### Hour buckets and the day-top aggregator -/

/-- Modelled from the spec: the per-bucket LRU capacity (the
`queryLogTopSize` constant is declared outside `src/`; the spec fixes no
numeric value, the model uses a small concrete capacity). -/
def queryLogTopSize : Nat := 3

/-- One hour bucket (`hourTop`): three bounded LRU counter maps. -/
structure hourTop where
  domains : LRUCache
  blocked : LRUCache
  clients : LRUCache
deriving DecidableEq

/-- The Go `hourTop.init`: a fresh bucket of three empty LRU caches of
capacity `queryLogTopSize`. -/
def hourTop.init : hourTop :=
  ⟨gcacheNew queryLogTopSize, gcacheNew queryLogTopSize, gcacheNew queryLogTopSize⟩

/-- The Go `hourTop.incrementDomains`. -/
def hourTop.incrementDomains (h : hourTop) (key : String) : hourTop :=
  { h with domains := incrementValue h.domains key }

/-- The Go `hourTop.incrementBlocked`. -/
def hourTop.incrementBlocked (h : hourTop) (key : String) : hourTop :=
  { h with blocked := incrementValue h.blocked key }

/-- The Go `hourTop.incrementClients`. -/
def hourTop.incrementClients (h : hourTop) (key : String) : hourTop :=
  { h with clients := incrementValue h.clients key }

/-- The day-top aggregator (`dayTop`): the configured retention limit and the
hour buckets, newest first. -/
structure dayTop where
  limit : Nat
  hours : List hourTop
deriving DecidableEq

/-- The Go `dayTop.init(limit)`: builds `limit` fresh buckets; installs them
when there are none yet, appends the first `limit - d.limit` fresh buckets
when growing, and otherwise keeps the first `d.limit - limit` buckets when
shrinking; finally stores the new limit. -/
def dayTop.init (d : dayTop) (limit : Nat) : dayTop :=
  let a := List.replicate limit hourTop.init
  if d.hours.length = 0 then { limit := limit, hours := a }
  else if limit > d.limit then
    { limit := limit, hours := d.hours ++ a.take (limit - d.limit) }
  else if limit < d.limit then
    { limit := limit, hours := d.hours.take (d.limit - limit) }
  else
    { limit := limit, hours := d.hours }

/-- The Go `dayTop.rotateHourlyTop`: prepends a fresh bucket and truncates the
ring to `d.limit` buckets. -/
def dayTop.rotateHourlyTop (d : dayTop) : dayTop :=
  { d with hours := (hourTop.init :: d.hours).take d.limit }

/-- The lowercased, trailing-dot-trimmed queried name the aggregator counts
under (`strings.ToLower(strings.TrimSuffix(q.Question[0].Name, "."))`). -/
def hostname (qq : DNSQuestion) : String :=
  toLowerStr (trimSuffix qq.Name ".")

/-- The counter updates `dayTop.addEntry` applies to the selected bucket:
always the domain counter, additionally the blocked counter when the entry is
filtered, and the client counter when the client identifier is non-empty. -/
def bucketAdd (b : hourTop) (entry : logEntry) (host : String) : hourTop :=
  let b1 := b.incrementDomains host
  let b2 := if entry.Result.IsFiltered then b1.incrementBlocked host else b1
  if 0 < entry.IP.length then b2.incrementClients entry.IP else b2

/-- The Go `dayTop.addEntry(entry, q, now)`: selects the hour bucket by the
truncated hour distance, ignores too-old entries and entries without a usable
question name, and increments the bucket counters.  `none` marks the runtime
panic Go would hit when indexing `d.hours` with a negative or out-of-range
index. -/
def dayTop.addEntry (d : dayTop) (entry : logEntry) (q : DNSMsg) (now : Int) :
    Option dayTop :=
  if (d.limit : Int) ≤ hoursBetween entry.Time now then some d
  else
    match q.Question with
    | [] => some d
    | qq :: _ =>
      if hostname qq = "" then some d
      else if hoursBetween entry.Time now < 0 then none
      else
        match d.hours.get? (hoursBetween entry.Time now).toNat with
        | none => none
        | some b =>
          some { d with
            hours := d.hours.set (hoursBetween entry.Time now).toNat
              (bucketAdd b entry (hostname qq)) }

/-- The top-stats result (`StatsTop`): three key-to-count maps, embedded as
total functions defaulting to 0 for absent keys. -/
structure StatsTop where
  Domains : String → Int
  Blocked : String → Int
  Clients : String → Int

/-- The per-cache accumulation loop of `getStatsTop` (the local `do` closure):
for each key of the cache, adds the cache's count for that key to the result
map. -/
def statsDo (keys : List String) (getter : String → Int) (result : String → Int) :
    String → Int :=
  match keys with
  | [] => result
  | key :: rest =>
    statsDo rest getter (fun k => if k = key then result k + getter key else result k)

/-- The per-hour loop of `getStatsTop`: folds the three caches of each bucket
into the accumulated maps. -/
def statsLoop : List hourTop → StatsTop → StatsTop
  | [], s => s
  | h :: rest, s =>
    statsLoop rest
      { Domains := statsDo (h.domains.entries.map Prod.fst) (lookupInt h.domains) s.Domains
        Blocked := statsDo (h.blocked.entries.map Prod.fst) (lookupInt h.blocked) s.Blocked
        Clients := statsDo (h.clients.entries.map Prod.fst) (lookupInt h.clients) s.Clients }

/-- The Go `dayTop.getStatsTop(hourOffset)`: clamps the offset to the bucket
count and merges the counters of buckets `0 .. hourOffset - 1` by key. -/
def dayTop.getStatsTop (d : dayTop) (hourOffset : Nat) : StatsTop :=
  statsLoop (d.hours.take (min hourOffset d.hours.length))
    ⟨fun _ => 0, fun _ => 0, fun _ => 0⟩

/-! ### The append log store (`querylog_file.go`)

The log file is a sequence of encoded records; disk-I/O and encoder failures
are external outcomes and are supplied by a `DiskEnv` value (`none` means the
operation succeeds).  Gzip is compiled out in the source (`enableGzip =
false`), so the gzip branches are omitted. -/

/-- Outcomes of the external fallible operations inside one flush: a failing
JSON encoder and a failing file open/write. -/
structure DiskEnv where
  encodeErr : Option String
  writeErr : Option String
deriving DecidableEq

/-- Modelled from the spec: the pending-buffer capacity threshold (the
`logBufferCap` constant is declared outside `src/`; the spec fixes no numeric
value). -/
def logBufferCap : Nat := 5000

/-- The store state used by the flush path: the pending buffer, the
flush-pending flag and the active log file content (a list of encoded
records). -/
structure queryLog where
  logBuffer : List logEntry
  flushPending : Bool
  logFile : List (List Nat)
deriving DecidableEq

/-- The record loop of `checkBuffer`: decodes each freshly written record,
compares it against `buffer[i]`, and returns the number of decoded records.
A decode failure or a mismatch is an error; reading past the end of `buffer`
is the index-out-of-range panic Go would hit. -/
def checkLoop (buffer : List logEntry) : Nat → List (List Nat) → Except String Nat
  | i, [] => Except.ok i
  | i, line :: rest =>
    match decodeEntry line with
    | none => Except.error "Failed to decode"
    | some entry =>
      match buffer.get? i with
      | none => Except.error "panic: index out of range"
      | some expected =>
        if entry = expected then checkLoop buffer (i + 1) rest
        else Except.error "decoded buffer differs"

/-- The Go `checkBuffer(buffer, b)`: decodes the encoded batch, deep-compares
every record against the in-memory batch, and fails when any record differs
or the counts differ. -/
def checkBuffer (buffer : List logEntry) (b : List (List Nat)) : Except String Unit :=
  match checkLoop buffer 0 b with
  | Except.error e => Except.error e
  | Except.ok i =>
    if i = buffer.length then Except.ok ()
    else Except.error "check fail: entry count differs"

/-- The Go `flushToFile(buffer)`: an empty buffer is a no-op; otherwise the
batch is encoded (encoder failure aborts), self-checked with `checkBuffer`
(mismatch aborts), and appended to the log file (write failure aborts).  The
result is the new file content. -/
def flushToFile (env : DiskEnv) (logFile : List (List Nat)) (buffer : List logEntry) :
    Except String (List (List Nat)) :=
  if buffer.length = 0 then Except.ok logFile
  else
    match env.encodeErr with
    | some e => Except.error e
    | none =>
      let b := buffer.map encodeEntry
      match checkBuffer buffer b with
      | Except.error e => Except.error e
      | Except.ok _ =>
        match env.writeErr with
        | some e => Except.error e
        | none => Except.ok (logFile ++ b)

/-- The Go `flushLogBuffer(fullFlush)`: returns unchanged when the buffer is
below the capacity threshold and no full flush was requested; otherwise takes
the buffer out of the state (setting it to nil and clearing `flushPending`)
and calls `flushToFile`, reporting its error if any. -/
def flushLogBuffer (env : DiskEnv) (l : queryLog) (fullFlush : Bool) :
    queryLog × Option String :=
  let needFlush := logBufferCap ≤ l.logBuffer.length
  if !needFlush && !fullFlush then (l, none)
  else
    let l2 : queryLog := { logBuffer := [], flushPending := false, logFile := l.logFile }
    match flushToFile env l2.logFile l.logBuffer with
    | Except.error e => (l2, some e)
    | Except.ok f => ({ l2 with logFile := f }, none)

/-! ### Replay (`genericLoader` / `fillFromFile`) and stats backfill -/

/-- The record loop of `genericLoader` over one file: a record that fails to
decode is skipped ("next entry can be fine, try more"); a record older than
the time window is skipped; `onEntry` is called for the rest, and an `onEntry`
error aborts the whole load and is returned.  The state accumulated so far is
kept (Go mutates it in place through the closure). -/
def loadRecords {σ : Type} (onEntry : σ → logEntry → Except String σ)
    (needMore : σ → Bool) (now timeWindow : Int) :
    σ → List (List Nat) → σ × Option String
  | s, [] => (s, none)
  | s, r :: rs =>
    if !needMore s then (s, none)
    else
      match decodeEntry r with
      | none => loadRecords onEntry needMore now timeWindow s rs
      | some entry =>
        if now - entry.Time > timeWindow then
          loadRecords onEntry needMore now timeWindow s rs
        else
          match onEntry s entry with
          | Except.error e => (s, some e)
          | Except.ok s2 => loadRecords onEntry needMore now timeWindow s2 rs

/-- The Go `genericLoader(onEntry, needMore, timeWindow)`: reads the files in
order (active file first, then the rotated backup), stopping between files
when `needMore` says so, and aborting with the error of the first failing
`onEntry` call. -/
def genericLoader {σ : Type} (onEntry : σ → logEntry → Except String σ)
    (needMore : σ → Bool) (now timeWindow : Int) :
    σ → List (List (List Nat)) → σ × Option String
  | s, [] => (s, none)
  | s, f :: fs =>
    if !needMore s then (s, none)
    else
      match loadRecords onEntry needMore now timeWindow s f with
      | (s2, none) => genericLoader onEntry needMore now timeWindow s2 fs
      | (s2, some e) => (s2, some e)

/-- The `onEntry` closure of `fillFromFile`: skips entries with an absent
question, skips entries whose timestamp is in the future, returns the unpack
error of a malformed question payload, skips messages without exactly one
question, and otherwise appends the entry to the recent cache, trimming it to
`queryLogSize` entries (the `queryLogSize` constant is declared outside
`src/`, so the capacity is a parameter). -/
def fillOnEntry (now : Int) (queryLogSize : Nat) (cache : List logEntry)
    (entry : logEntry) : Except String (List logEntry) :=
  if entry.Question.length = 0 then Except.ok cache
  else if now < entry.Time then Except.ok cache
  else
    match unpackMsg entry.Question with
    | Except.error e => Except.error e
    | Except.ok q =>
      if q.Question.length ≠ 1 then Except.ok cache
      else
        let cache2 := cache ++ [entry]
        Except.ok
          (if cache2.length > queryLogSize then
            cache2.drop (cache2.length - queryLogSize)
          else cache2)

/-- The Go `fillFromFile`: replays the log files through `genericLoader` with
the `fillOnEntry` closure, starting from the current recent cache; a loader
error is logged and the cache built so far is kept. -/
def fillFromFile (now timeWindow : Int) (queryLogSize : Nat)
    (cache0 : List logEntry) (files : List (List (List Nat))) : List logEntry :=
  (genericLoader (fillOnEntry now queryLogSize) (fun _ => true) now timeWindow
    cache0 files).1

/-- The Go `fillStatsFromQueryLog` loop body over the entries yielded by the
log reader (the reader itself is declared outside `src/`, so the entries are
a parameter): entries older than the retention window, with an absent
question, with a future timestamp, with an unpackable question payload, or
without exactly one question are skipped and the scan continues; the rest are
fed to `dayTop.addEntry` and then counted into the stats object (declared
outside `src/` and modelled as the returned list of counted entries).  `none`
marks the runtime panic `addEntry` would hit on a bad bucket index. -/
def fillStatsFromQueryLog (now : Int) (timeLimit : Nat) :
    dayTop → List logEntry → Option (dayTop × List logEntry)
  | d, [] => some (d, [])
  | d, e :: es =>
    if e.Time < now - (timeLimit : Int) * 3600 then
      fillStatsFromQueryLog now timeLimit d es
    else if e.Question.length = 0 then fillStatsFromQueryLog now timeLimit d es
    else if now < e.Time then fillStatsFromQueryLog now timeLimit d es
    else
      match unpackMsg e.Question with
      | Except.error _ => fillStatsFromQueryLog now timeLimit d es
      | Except.ok q =>
        if q.Question.length ≠ 1 then fillStatsFromQueryLog now timeLimit d es
        else
          match d.addEntry e q now with
          | none => none
          | some d2 =>
            match fillStatsFromQueryLog now timeLimit d2 es with
            | none => none
            | some (d3, counted) => some (d3, e :: counted)

/-! ### The query-log configuration handler (`control_querylog.go`) -/

/-- The request/response body of the query-log configuration endpoints. -/
structure qlogConfig where
  Enabled : Bool
  Interval : Nat
deriving DecidableEq

/-- The part of the stored configuration the handler reads and writes. -/
structure DNSConfig where
  QueryLogEnabled : Bool
  QueryLogInterval : Nat
deriving DecidableEq

/-- Modelled from the spec: `checkStatsInterval` (declared outside `src/`)
validates the retention interval against a fixed set of supported values. -/
def supportedIntervals : List Nat := [1, 7, 30, 90]

/-- Modelled from the spec: membership test in the fixed supported set. -/
def checkStatsInterval (i : Nat) : Bool := supportedIntervals.contains i

/-- The request body as the JSON decoder sees it: either malformed or a
decoded `qlogConfig`. -/
inductive ReqBody where
  | malformed : ReqBody
  | valid : qlogConfig → ReqBody
deriving DecidableEq

/-- The observable outcome of one `handleQueryLogConfig` call: the HTTP
status, the stored configuration after the call, and the interval (in hours)
passed to `querylog.Configure` when the query log was reconfigured. -/
structure HandlerResult where
  status : Nat
  cfg : DNSConfig
  reconfigured : Option Nat
deriving DecidableEq

/-- The Go `handleQueryLogConfig`: a request that fails to decode or whose
interval is not in the supported set is answered with 400 Bad Request before
any state is touched; otherwise both configuration fields are stored and the
query log is reconfigured with the new interval converted to hours. -/
def handleQueryLogConfig (body : ReqBody) (cfg : DNSConfig) : HandlerResult :=
  match body with
  | ReqBody.malformed => ⟨400, cfg, none⟩
  | ReqBody.valid req =>
    if !checkStatsInterval req.Interval then ⟨400, cfg, none⟩
    else ⟨200, ⟨req.Enabled, req.Interval⟩, some (req.Interval * 24)⟩

/-- Iterated `dayTop.addEntry`: records the same entry `n` times, propagating
the panic marker. -/
def addEntryN (d : dayTop) (entry : logEntry) (q : DNSMsg) (now : Int) :
    Nat → Option dayTop
  | 0 => some d
  | n + 1 =>
    match addEntryN d entry q now n with
    | none => none
    | some d2 => d2.addEntry entry q now

/-! ### Codec round-trip lemmas -/

theorem readIntVal_encodeInt (i : Int) (r : List Nat) :
    readIntVal (encodeInt i ++ r) = some (i, r) := by
  by_cases h : 0 ≤ i
  · simp [encodeInt, h, readIntVal, Int.toNat_of_nonneg h]
  · have h2 : 0 ≤ -i := by omega
    simp [encodeInt, h, readIntVal, Int.toNat_of_nonneg h2]

theorem readBytes_encodeBytes (bs : Bytes) (r : List Nat) :
    readBytes (encodeBytes bs ++ r) = some (bs, r) := by
  have h : ¬ (bs ++ r).length < bs.length := by simp
  simp [encodeBytes, readBytes, h, List.take_left, List.drop_left]

theorem readStr_encodeStr (s : String) (r : List Nat) :
    readStr (encodeStr s ++ r) = some (s, r) := by
  unfold readStr encodeStr
  rw [readBytes_encodeBytes]
  simp [List.map_map, Function.comp_def, Char.ofNat_toNat, String.toList]

theorem decode_encode (e : logEntry) : decodeEntry (encodeEntry e) = some e := by
  unfold decodeEntry encodeEntry
  simp only [List.append_assoc]
  rw [readIntVal_encodeInt]
  simp only []
  rw [readBytes_encodeBytes]
  simp only []
  rw [readBytes_encodeBytes]
  simp only []
  rw [readStr_encodeStr]
  simp only []
  obtain ⟨t, qs, ans, ip, ⟨fl⟩, el⟩ := e
  cases fl <;> rfl

theorem decodeAllRecords_map_encode (buffer : List logEntry) :
    decodeAllRecords (buffer.map encodeEntry) = some buffer := by
  induction buffer with
  | nil => rfl
  | cons e es ih => simp [decodeAllRecords, decode_encode, ih]

theorem get?_length_append {α : Type} (pre : List α) (x : α) (suf : List α) :
    (pre ++ x :: suf).get? pre.length = some x := by
  induction pre with
  | nil => rfl
  | cons a as ih => simpa using ih

theorem checkLoop_encoded (pre suf : List logEntry) :
    checkLoop (pre ++ suf) pre.length (suf.map encodeEntry) =
      Except.ok (pre.length + suf.length) := by
  induction suf generalizing pre with
  | nil => simp [checkLoop]
  | cons e es ih =>
    have hstep := ih (pre ++ [e])
    simp only [List.append_assoc, List.singleton_append, List.length_append,
      List.length_singleton] at hstep
    simp only [List.map_cons, checkLoop, decode_encode, get?_length_append,
      eq_self_iff_true, if_true, hstep, List.length_cons]
    congr 1
    omega

theorem checkBuffer_encoded (buffer : List logEntry) :
    checkBuffer buffer (buffer.map encodeEntry) = Except.ok () := by
  have h := checkLoop_encoded [] buffer
  simp only [List.nil_append, List.length_nil, Nat.zero_add] at h
  simp [checkBuffer, h]

/-! ### Claim C4 -/

/-- C4: for every batch of valid log entries, decoding the bytes produced by
encoding the batch yields a sequence of entries that deep-equals the original
batch, entry for entry and with the same count, and `flushToFile` reports
success only when the `checkBuffer` self-check passes. -/
theorem encode_decode_roundtrip_and_flush_selfcheck :
    (∀ buffer : List logEntry,
      decodeAllRecords (buffer.map encodeEntry) = some buffer ∧
      checkBuffer buffer (buffer.map encodeEntry) = Except.ok ()) ∧
    (∀ (env : DiskEnv) (file out : List (List Nat)) (buffer : List logEntry),
      flushToFile env file buffer = Except.ok out →
      buffer = [] ∨ checkBuffer buffer (buffer.map encodeEntry) = Except.ok ()) := by
  constructor
  · intro buffer
    exact ⟨decodeAllRecords_map_encode buffer, checkBuffer_encoded buffer⟩
  · intro env file out buffer h
    exact Or.inr (checkBuffer_encoded buffer)

/-- A concrete log entry used by the witness instantiations. -/
def wEntry : logEntry := ⟨5, [3, 7], [2], "10.0.0.7", ⟨true⟩, 4⟩

/-- Witness for C4 at a singleton batch and a clean disk environment. -/
theorem encode_decode_roundtrip_and_flush_selfcheck_witness :
    (decodeAllRecords ([wEntry].map encodeEntry) = some [wEntry] ∧
      checkBuffer [wEntry] ([wEntry].map encodeEntry) = Except.ok ()) ∧
    ([wEntry] = [] ∨ checkBuffer [wEntry] ([wEntry].map encodeEntry) = Except.ok ()) :=
  ⟨encode_decode_roundtrip_and_flush_selfcheck.1 [wEntry],
    encode_decode_roundtrip_and_flush_selfcheck.2 ⟨none, none⟩ []
      ([encodeEntry wEntry]) [wEntry] (by rfl)⟩

/-! ### Claim C1 -/

/-- A concrete pending log entry for the flush-failure scenarios. -/
def cEntry : logEntry := ⟨0, [1], [], "", ⟨false⟩, 0⟩

/-- C1 counterexample: on a one-entry pending buffer and a failing file
write, `flushLogBuffer` returns the error, but the batch is neither in the
pending buffer (already set to nil) nor in the file nor returned to the
caller: the entries are dropped, contradicting the claim that the failed
batch is retained for a later retry. -/
theorem flushLogBuffer_drops_failed_batch :
    (⟨[cEntry], true, []⟩ : queryLog).logBuffer = [cEntry] ∧
    (flushLogBuffer ⟨none, some "disk fail"⟩ ⟨[cEntry], true, []⟩ true).2 =
      some "disk fail" ∧
    (flushLogBuffer ⟨none, some "disk fail"⟩ ⟨[cEntry], true, []⟩ true).1.logBuffer = [] ∧
    (flushLogBuffer ⟨none, some "disk fail"⟩ ⟨[cEntry], true, []⟩ true).1.logFile = [] :=
  ⟨rfl, rfl, rfl, rfl⟩

/-- C1 amended: if the flush fails at encoding, at the self-check, or at the
file write, `flushLogBuffer` returns the error, but the batch has already
been removed from the pending buffer and is not restored: the pending buffer
is left empty, the file is unchanged, and the failed entries are dropped. -/
theorem flushLogBuffer_failure_empties_buffer (env : DiskEnv) (l : queryLog)
    (fullFlush : Bool)
    (herr : (flushLogBuffer env l fullFlush).2.isSome = true) :
    (flushLogBuffer env l fullFlush).1.logBuffer = [] ∧
    (flushLogBuffer env l fullFlush).1.logFile = l.logFile := by
  simp only [flushLogBuffer] at herr ⊢
  by_cases hc : (!decide (logBufferCap ≤ l.logBuffer.length) && !fullFlush) = true
  · rw [if_pos hc] at herr
    simp at herr
  · rw [if_neg hc] at herr ⊢
    cases hf : flushToFile env l.logFile l.logBuffer with
    | error e => exact ⟨rfl, rfl⟩
    | ok f => rw [hf] at herr; simp at herr

/-- Witness for C1 amended at a failing encoder. -/
theorem flushLogBuffer_failure_empties_buffer_witness :
    (flushLogBuffer ⟨some "marshal fail", none⟩ ⟨[cEntry], false, [[9]]⟩ true).1.logBuffer = [] ∧
    (flushLogBuffer ⟨some "marshal fail", none⟩ ⟨[cEntry], false, [[9]]⟩ true).1.logFile =
      (⟨[cEntry], false, [[9]]⟩ : queryLog).logFile :=
  flushLogBuffer_failure_empties_buffer ⟨some "marshal fail", none⟩
    ⟨[cEntry], false, [[9]]⟩ true (by rfl)

/-! ### LRU cache lemmas -/

theorem lookupInt_cons_self (cap : Nat) (k : String) (v : Int)
    (es : List (String × Int)) : lookupInt ⟨cap, (k, v) :: es⟩ k = v := by
  have h : List.find? (fun kv => kv.1 == k) ((k, v) :: es) = some (k, v) :=
    List.find?_cons_of_pos _ (by simp)
  simp only [lookupInt, h]

theorem lookupInt_cons_ne (cap : Nat) (a : String × Int) (k : String)
    (es : List (String × Int)) (h : (a.1 == k) = false) :
    lookupInt ⟨cap, a :: es⟩ k = lookupInt ⟨cap, es⟩ k := by
  have h2 : List.find? (fun kv => kv.1 == k) (a :: es) =
      List.find? (fun kv => kv.1 == k) es :=
    List.find?_cons_of_neg _ (by simp [h])
  simp only [lookupInt, h2]

theorem lookupInt_incrementValue_self (c : LRUCache) (k : String) :
    lookupInt (incrementValue c k) k = lookupInt c k + 1 := by
  obtain ⟨cap, es⟩ := c
  cases hfind : List.find? (fun kv => kv.1 == k) es with
  | some kv =>
    have hbeq : (kv.1 == k) = true :=
      @List.find?_some (String × Int) (fun kv => kv.1 == k) kv es hfind
    have hres : incrementValue ⟨cap, es⟩ k =
        LRUCache.set ⟨cap, kv :: List.filter (fun kv2 => !(kv2.1 == k)) es⟩ k (kv.2 + 1) := by
      simp only [incrementValue, LRUCache.get, hfind]
    rw [hres]
    have hany : List.any (kv :: List.filter (fun kv2 => !(kv2.1 == k)) es)
        (fun kv2 => kv2.1 == k) = true := by
      simp [List.any_cons, hbeq]
    simp only [LRUCache.set, hany, eq_self_iff_true, if_true]
    rw [lookupInt_cons_self]
    simp only [lookupInt, hfind]
  | none =>
    have hany : List.any es (fun kv2 => kv2.1 == k) = false := by
      rw [List.any_eq_false]
      intro x hx
      exact List.find?_eq_none.mp hfind x hx
    have hres : incrementValue ⟨cap, es⟩ k = LRUCache.set ⟨cap, es⟩ k 1 := by
      simp only [incrementValue, LRUCache.get, hfind]
    rw [hres]
    simp only [LRUCache.set, hany, Bool.false_eq_true, if_false]
    have hlook : lookupInt ⟨cap, es⟩ k = 0 := by simp only [lookupInt, hfind]
    rw [hlook]
    split <;> rw [lookupInt_cons_self] <;> omega

theorem find?_filter_of_imp {α : Type} (p q : α → Bool) (l : List α)
    (h : ∀ a, p a = true → q a = true) :
    (l.filter q).find? p = l.find? p := by
  induction l with
  | nil => rfl
  | cons a as ih =>
    cases hpa : p a with
    | true =>
      have hqa : q a = true := h a hpa
      have hfa : List.find? p (a :: as) = some a := List.find?_cons_of_pos _ hpa
      have hfa2 : List.find? p (a :: List.filter q as) = some a :=
        List.find?_cons_of_pos _ hpa
      simp [List.filter_cons, hqa, hfa, hfa2]
    | false =>
      have hfa : List.find? p (a :: as) = List.find? p as :=
        List.find?_cons_of_neg _ (by simp [hpa])
      cases hqa : q a with
      | true =>
        have hfa2 : List.find? p (a :: List.filter q as) = List.find? p (List.filter q as) :=
          List.find?_cons_of_neg _ (by simp [hpa])
        simp [List.filter_cons, hqa, hfa, hfa2, ih]
      | false => simp [List.filter_cons, hqa, hfa, ih]

theorem find?_dropLast_of_any {α : Type} (p : α → Bool) (l : List α)
    (h : (l.dropLast).any p = true) :
    (l.dropLast).find? p = l.find? p := by
  induction l with
  | nil => simp at h
  | cons a as ih =>
    cases as with
    | nil => simp at h
    | cons b t =>
      rw [List.dropLast_cons₂] at h ⊢
      cases hpa : p a with
      | true =>
        have h1 : List.find? p (a :: (b :: t).dropLast) = some a :=
          List.find?_cons_of_pos _ hpa
        have h2 : List.find? p (a :: b :: t) = some a := List.find?_cons_of_pos _ hpa
        rw [h1, h2]
      | false =>
        rw [List.any_cons, hpa, Bool.false_or] at h
        have h1 : List.find? p (a :: (b :: t).dropLast) = List.find? p (b :: t).dropLast :=
          List.find?_cons_of_neg _ (by simp [hpa])
        have h2 : List.find? p (a :: b :: t) = List.find? p (b :: t) :=
          List.find?_cons_of_neg _ (by simp [hpa])
        rw [h1, h2]
        exact ih h

/-! ### Claim C8 -/

/-- C8 counterexample: with the fixed per-bucket capacity, incrementing
enough fresh keys evicts key "a" from a bucket's domain cache, and the count
observable for "a" drops from 1 to 0 between two observations within the
bucket's lifetime (`lockedGetValue` reports 0 for an evicted key). -/
theorem incrementValue_eviction_decreases_count :
    lookupInt (incrementValue hourTop.init.domains "a") "a" = 1 ∧
    lookupInt (incrementValue (incrementValue (incrementValue
      (incrementValue hourTop.init.domains "a") "b") "c") "d") "a" = 0 := by
  decide

/-- C8 amended: within a bucket's lifetime the count observable for a key
never decreases from one increment to the next as long as the key remains in
the bucket's LRU map; when an insertion at capacity evicts the key, its
observable count drops to zero. -/
theorem incrementValue_monotone_while_present (c : LRUCache) (k j : String)
    (hpres : containsKey (incrementValue c j) k = true) :
    lookupInt c k ≤ lookupInt (incrementValue c j) k := by
  by_cases hkj : k = j
  · subst hkj
    rw [lookupInt_incrementValue_self]
    omega
  · have hne : (j == k) = false := beq_eq_false_iff_ne.mpr (Ne.symm hkj)
    have himp : ∀ a : String × Int, (a.1 == k) = true → (!(a.1 == j)) = true := by
      intro a ha
      have ha2 : a.1 = k := eq_of_beq ha
      simp [ha2, beq_eq_false_iff_ne.mpr hkj]
    obtain ⟨cap, es⟩ := c
    cases hfind : List.find? (fun kv => kv.1 == j) es with
    | some kv =>
      have hbeq : (kv.1 == j) = true :=
        @List.find?_some (String × Int) (fun kv => kv.1 == j) kv es hfind
      have hany : List.any (kv :: List.filter (fun kv2 => !(kv2.1 == j)) es)
          (fun kv2 => kv2.1 == j) = true := by
        simp [List.any_cons, hbeq]
      have hres : incrementValue ⟨cap, es⟩ j =
          ⟨cap, (j, kv.2 + 1) :: List.filter (fun kv2 => !(kv2.1 == j))
            (kv :: List.filter (fun kv2 => !(kv2.1 == j)) es)⟩ := by
        simp only [incrementValue, LRUCache.get, hfind, LRUCache.set, hany,
          eq_self_iff_true, if_true]
      rw [hres]
      rw [lookupInt_cons_ne cap (j, kv.2 + 1) k _ hne]
      have hX : List.filter (fun kv2 => !(kv2.1 == j))
          (kv :: List.filter (fun kv2 => !(kv2.1 == j)) es) =
          List.filter (fun kv2 => !(kv2.1 == j)) es := by
        simp [List.filter_cons, hbeq, List.filter_filter]
      rw [hX]
      have hfilt : List.find? (fun kv => kv.1 == k)
          (List.filter (fun kv2 => !(kv2.1 == j)) es) =
          List.find? (fun kv => kv.1 == k) es := find?_filter_of_imp _ _ _ himp
      simp only [lookupInt, hfilt]
      exact le_refl _
    | none =>
      have hany : List.any es (fun kv2 => kv2.1 == j) = false := by
        rw [List.any_eq_false]
        intro x hx
        exact List.find?_eq_none.mp hfind x hx
      have hres : incrementValue ⟨cap, es⟩ j = LRUCache.set ⟨cap, es⟩ j 1 := by
        simp only [incrementValue, LRUCache.get, hfind]
      rw [hres] at hpres ⊢
      simp only [LRUCache.set, hany, Bool.false_eq_true, if_false] at hpres ⊢
      split at hpres
      · next hlen =>
        rw [if_pos hlen]
        rw [lookupInt_cons_ne cap (j, 1) k es hne]
      · next hlen =>
        rw [if_neg hlen]
        rw [lookupInt_cons_ne cap (j, 1) k es.dropLast hne]
        rw [containsKey] at hpres
        simp only [List.any_cons, hne, Bool.false_or] at hpres
        have hdrop : List.find? (fun kv => kv.1 == k) es.dropLast =
            List.find? (fun kv => kv.1 == k) es := find?_dropLast_of_any _ _ hpres
        simp only [lookupInt, hdrop]
        exact le_refl _

/-- Witness for C8 amended: incrementing a present key keeps its count
non-decreasing. -/
theorem incrementValue_monotone_while_present_witness :
    lookupInt (⟨3, [("a", 2)]⟩ : LRUCache) "a" ≤
      lookupInt (incrementValue (⟨3, [("a", 2)]⟩ : LRUCache) "a") "a" :=
  incrementValue_monotone_while_present ⟨3, [("a", 2)]⟩ "a" "a" (by decide)

/-! ### Claim C7 -/

/-- C7: an entry whose truncated hour distance from now is at least the
retention limit is ignored by `addEntry`: no error is reported and the
aggregator is returned unchanged, so the counts of every bucket (domains,
blocked, clients, in every hour) are untouched. -/
theorem addEntry_ignores_old_entries (d : dayTop) (entry : logEntry) (q : DNSMsg)
    (now : Int) (h : (d.limit : Int) ≤ hoursBetween entry.Time now) :
    d.addEntry entry q now = some d := by
  unfold dayTop.addEntry
  rw [if_pos h]

/-- Witness for C7: a two-hour-old entry against a one-hour retention
limit. -/
theorem addEntry_ignores_old_entries_witness :
    dayTop.addEntry (dayTop.init ⟨0, []⟩ 1) ⟨-7200, [1], [], "", ⟨false⟩, 0⟩
      ⟨[⟨"example.org."⟩]⟩ 0 = some (dayTop.init ⟨0, []⟩ 1) :=
  addEntry_ignores_old_entries (dayTop.init ⟨0, []⟩ 1)
    ⟨-7200, [1], [], "", ⟨false⟩, 0⟩ ⟨[⟨"example.org."⟩]⟩ 0 (by decide)

/-! ### Claim C6 -/

theorem bucketAdd_domains (b : hourTop) (entry : logEntry) (host : String) :
    (bucketAdd b entry host).domains = incrementValue b.domains host := by
  by_cases hf : entry.Result.IsFiltered <;> by_cases hip : 0 < entry.IP.length <;>
    simp [bucketAdd, hourTop.incrementDomains, hourTop.incrementBlocked,
      hourTop.incrementClients, hf, hip]

theorem bucketAdd_blocked (b : hourTop) (entry : logEntry) (host : String) :
    (bucketAdd b entry host).blocked =
      if entry.Result.IsFiltered then incrementValue b.blocked host
      else b.blocked := by
  by_cases hf : entry.Result.IsFiltered <;> by_cases hip : 0 < entry.IP.length <;>
    simp [bucketAdd, hourTop.incrementDomains, hourTop.incrementBlocked,
      hourTop.incrementClients, hf, hip]

theorem bucketAdd_clients (b : hourTop) (entry : logEntry) (host : String) :
    (bucketAdd b entry host).clients =
      if 0 < entry.IP.length then incrementValue b.clients entry.IP
      else b.clients := by
  by_cases hf : entry.Result.IsFiltered <;> by_cases hip : 0 < entry.IP.length <;>
    simp [bucketAdd, hourTop.incrementDomains, hourTop.incrementBlocked,
      hourTop.incrementClients, hf, hip]

/-- C6: for an entry inside the retention window whose message has an
extractable query name, `addEntry` succeeds and replaces exactly the selected
hour bucket with `bucketAdd` of the old bucket, whereby the domain counter
under the lowercased, trailing-dot-trimmed query name is incremented; the
blocked counter of the same bucket is additionally incremented under the same
name exactly when the entry is filtered (an unfiltered entry leaves the
bucket's blocked cache untouched); and the bucket's client counter is
incremented when the entry carries a non-empty client identifier. -/
theorem addEntry_increments_counters (d : dayTop) (entry : logEntry)
    (qq : DNSQuestion) (qrest : List DNSQuestion) (now : Int) (b : hourTop)
    (h0 : 0 ≤ hoursBetween entry.Time now)
    (h1 : hoursBetween entry.Time now < (d.limit : Int))
    (hb : d.hours.get? (hoursBetween entry.Time now).toNat = some b)
    (hhost : hostname qq ≠ "") :
    d.addEntry entry ⟨qq :: qrest⟩ now =
      some ⟨d.limit, d.hours.set (hoursBetween entry.Time now).toNat
        (bucketAdd b entry (hostname qq))⟩ ∧
    lookupInt (bucketAdd b entry (hostname qq)).domains (hostname qq) =
      lookupInt b.domains (hostname qq) + 1 ∧
    (entry.Result.IsFiltered = true →
      lookupInt (bucketAdd b entry (hostname qq)).blocked (hostname qq) =
        lookupInt b.blocked (hostname qq) + 1) ∧
    (entry.Result.IsFiltered = false →
      (bucketAdd b entry (hostname qq)).blocked = b.blocked) ∧
    (0 < entry.IP.length →
      lookupInt (bucketAdd b entry (hostname qq)).clients entry.IP =
        lookupInt b.clients entry.IP + 1) := by
  refine ⟨?_, ?_, ?_, ?_, ?_⟩
  · simp only [dayTop.addEntry]
    rw [if_neg (not_le.mpr h1), if_neg hhost, if_neg (not_lt.mpr h0), hb]
  · rw [bucketAdd_domains, lookupInt_incrementValue_self]
  · intro hf
    rw [bucketAdd_blocked, if_pos hf, lookupInt_incrementValue_self]
  · intro hf
    rw [bucketAdd_blocked, if_neg (by simp [hf])]
  · intro hip
    rw [bucketAdd_clients, if_pos hip, lookupInt_incrementValue_self]

/-- The concrete filtered entry of the C6 witness. -/
def wEntry6 : logEntry := ⟨0, [1], [], "10.0.0.1", ⟨true⟩, 0⟩

/-- The concrete question of the C6 witness. -/
def wQ6 : DNSQuestion := ⟨"Ads.Example."⟩

/-- Witness for C6 at a filtered entry carrying a client identifier. -/
theorem addEntry_increments_counters_witness :
    dayTop.addEntry (dayTop.init ⟨0, []⟩ 2) wEntry6 ⟨wQ6 :: []⟩ 0 =
      some ⟨(dayTop.init ⟨0, []⟩ 2).limit, (dayTop.init ⟨0, []⟩ 2).hours.set
        (hoursBetween wEntry6.Time 0).toNat
        (bucketAdd hourTop.init wEntry6 (hostname wQ6))⟩ ∧
    lookupInt (bucketAdd hourTop.init wEntry6 (hostname wQ6)).domains (hostname wQ6) =
      lookupInt hourTop.init.domains (hostname wQ6) + 1 ∧
    (wEntry6.Result.IsFiltered = true →
      lookupInt (bucketAdd hourTop.init wEntry6 (hostname wQ6)).blocked (hostname wQ6) =
        lookupInt hourTop.init.blocked (hostname wQ6) + 1) ∧
    (wEntry6.Result.IsFiltered = false →
      (bucketAdd hourTop.init wEntry6 (hostname wQ6)).blocked = hourTop.init.blocked) ∧
    (0 < wEntry6.IP.length →
      lookupInt (bucketAdd hourTop.init wEntry6 (hostname wQ6)).clients wEntry6.IP =
        lookupInt hourTop.init.clients wEntry6.IP + 1) :=
  addEntry_increments_counters (dayTop.init ⟨0, []⟩ 2) wEntry6 wQ6 [] 0 hourTop.init
    (by decide) (by decide) (by decide) (by decide)

/-! ### Claim C5 -/

theorem incrementValue_entries_nil (c : LRUCache) (k : String)
    (h : c.entries = []) : (incrementValue c k).entries = [(k, 1)] := by
  obtain ⟨cap, es⟩ := c
  change es = [] at h
  subst h
  simp only [incrementValue, LRUCache.get, List.find?_nil, LRUCache.set,
    List.any_nil, Bool.false_eq_true, if_false]
  split <;> rfl

theorem incrementValue_entries_single (c : LRUCache) (k : String) (v : Int)
    (h : c.entries = [(k, v)]) : (incrementValue c k).entries = [(k, v + 1)] := by
  obtain ⟨cap, es⟩ := c
  change es = [(k, v)] at h
  subst h
  have hfind : List.find? (fun kv => kv.1 == k) [(k, v)] = some (k, v) :=
    List.find?_cons_of_pos _ (by simp)
  have hfilter : List.filter (fun kv2 => !(kv2.1 == k)) [(k, v)] = [] := by simp
  have hany : List.any ((k, v) :: []) (fun kv2 => kv2.1 == k) = true := by simp
  simp only [incrementValue, LRUCache.get, hfind, hfilter, LRUCache.set, hany,
    eq_self_iff_true, if_true]

theorem lookupInt_of_entries (c : LRUCache) (k : String) (v : Int)
    (h : c.entries = [(k, v)]) : lookupInt c k = v := by
  obtain ⟨cap, es⟩ := c
  change es = [(k, v)] at h
  subst h
  exact lookupInt_cons_self cap k v []

theorem addEntryN_bucket0 (L : Nat) (entry : logEntry) (qq : DNSQuestion)
    (now : Int) (hL : 1 ≤ L) (hhour : hoursBetween entry.Time now = 0)
    (hhost : hostname qq ≠ "") (n : Nat) :
    ∃ b rest, addEntryN (dayTop.init ⟨0, []⟩ L) entry ⟨[qq]⟩ now n =
        some ⟨L, b :: rest⟩ ∧
      b.domains.entries = (if n = 0 then [] else [(hostname qq, (n : Int))]) := by
  induction n with
  | zero =>
    obtain ⟨l, rfl⟩ : ∃ l, L = l + 1 := ⟨L - 1, by omega⟩
    refine ⟨hourTop.init, List.replicate l hourTop.init, ?_, rfl⟩
    simp only [addEntryN, dayTop.init, List.length_nil, eq_self_iff_true,
      if_true, List.replicate_succ]
  | succ n ih =>
    obtain ⟨b, rest, heq, hdom⟩ := ih
    refine ⟨bucketAdd b entry (hostname qq), rest, ?_, ?_⟩
    · simp only [addEntryN, heq]
      simp only [dayTop.addEntry, hhour]
      rw [if_neg (by omega : ¬ ((L : Int) ≤ 0)), if_neg hhost,
        if_neg (by omega : ¬ ((0 : Int) < 0))]
      simp [Int.toNat_zero, List.get?_cons_zero, List.set_cons_zero]
    · rw [bucketAdd_domains]
      by_cases hn : n = 0
      · subst hn
        rw [incrementValue_entries_nil b.domains (hostname qq) (by simpa using hdom)]
        simp
      · rw [incrementValue_entries_single b.domains (hostname qq) (n : Int)
          (by simpa [hn] using hdom), if_neg (by omega : ¬ (n + 1 = 0))]
        norm_cast

/-- C5: recording N entries for the same query domain, all timestamped in the
current hour and with N not exceeding the per-bucket LRU capacity, into an
empty aggregator succeeds and makes `getStatsTop 1` report a count of exactly
N for that domain. -/
theorem topStats_counts_repeated_domain (L N : Nat) (entry : logEntry)
    (qq : DNSQuestion) (now : Int) (hL : 1 ≤ L) (hN : N ≤ queryLogTopSize)
    (hhour : hoursBetween entry.Time now = 0) (hhost : hostname qq ≠ "") :
    (addEntryN (dayTop.init ⟨0, []⟩ L) entry ⟨[qq]⟩ now N).isSome = true ∧
    (((addEntryN (dayTop.init ⟨0, []⟩ L) entry ⟨[qq]⟩ now N).getD
        ⟨0, []⟩).getStatsTop 1).Domains (hostname qq) = (N : Int) := by
  obtain ⟨b, rest, heq, hdom⟩ := addEntryN_bucket0 L entry qq now hL hhour hhost N
  rw [heq]
  refine ⟨rfl, ?_⟩
  have hmin : min 1 (b :: rest).length = 1 :=
    Nat.min_eq_left (by simp [Nat.succ_le_succ])
  simp only [Option.getD_some, dayTop.getStatsTop, hmin, List.take_succ_cons,
    List.take_zero, statsLoop]
  by_cases hN0 : N = 0
  · subst hN0
    rw [if_pos rfl] at hdom
    simp [hdom, statsDo]
  · rw [if_neg hN0] at hdom
    have hlook : lookupInt b.domains (hostname qq) = (N : Int) :=
      lookupInt_of_entries b.domains (hostname qq) (N : Int) hdom
    simp [hdom, statsDo, hlook]

/-- The concrete question of the C5 witness. -/
def wQ5 : DNSQuestion := ⟨"stats.example."⟩

/-- Witness for C5 at three increments into a two-bucket aggregator. -/
theorem topStats_counts_repeated_domain_witness :
    (addEntryN (dayTop.init ⟨0, []⟩ 2) wEntry6 ⟨[wQ5]⟩ 0 3).isSome = true ∧
    (((addEntryN (dayTop.init ⟨0, []⟩ 2) wEntry6 ⟨[wQ5]⟩ 0 3).getD
        ⟨0, []⟩).getStatsTop 1).Domains (hostname wQ5) = ((3 : Nat) : Int) :=
  topStats_counts_repeated_domain 2 3 wEntry6 wQ5 0 (by decide) (by decide)
    (by decide) (by decide)

/-! ### Claim C2 -/

/-- A distinguishable hour bucket holding one domain count, used to observe
which buckets a resize keeps. -/
def markedBucket (k : String) : hourTop :=
  ⟨⟨queryLogTopSize, [(k, 1)]⟩, gcacheNew queryLogTopSize, gcacheNew queryLogTopSize⟩

/-- C2 (code bug): shrinking the retention limit from 5 to 3 executes
`d.hours = d.hours[:d.limit-limit]` and keeps only the 2 newest buckets: the
bucket count ends at 2 instead of the configured 3, and bucket index 2
(inside `0..min(5,3)-1`) is discarded, violating the retention invariant and
the resize contract the claim states. -/
theorem dayTop_init_shrink_wrong_count :
    (dayTop.init ⟨5, [markedBucket "h0", markedBucket "h1", markedBucket "h2",
        markedBucket "h3", markedBucket "h4"]⟩ 3).limit = 3 ∧
    (dayTop.init ⟨5, [markedBucket "h0", markedBucket "h1", markedBucket "h2",
        markedBucket "h3", markedBucket "h4"]⟩ 3).hours =
      [markedBucket "h0", markedBucket "h1"] := by
  decide

/-! ### Claim C3 -/

/-- A record that decodes correctly but whose question payload fails to
unpack (it announces one question and then ends). -/
def badQEntry : logEntry := ⟨0, [1], [], "", ⟨false⟩, 0⟩

/-- A record with a well-formed one-question payload. -/
def goodEntry : logEntry :=
  ⟨0, packMsg ⟨[⟨"example.org."⟩]⟩, [], "10.0.0.1", ⟨false⟩, 0⟩

/-- C3 (code bug): during cache replay, `fillFromFile`'s entry callback
returns the unpack error of a malformed question payload and `genericLoader`
aborts, so the well-formed record behind it is never loaded (first conjunct),
although the same record loads fine on its own (second conjunct).  The stats
backfill loop by contrast skips the same malformed record and counts the
following well-formed one (third conjunct). -/
theorem fillFromFile_unpack_failure_aborts_replay :
    fillFromFile 0 3600 100 [] [[encodeEntry badQEntry, encodeEntry goodEntry]] = [] ∧
    fillFromFile 0 3600 100 [] [[encodeEntry goodEntry]] = [goodEntry] ∧
    (fillStatsFromQueryLog 0 1 (dayTop.init ⟨0, []⟩ 1) [badQEntry, goodEntry]).map
      Prod.snd = some [goodEntry] := by
  decide

/-! ### Claim C9 -/

/-- C9: a configuration-write request whose retention interval is outside the
supported set is answered with 400 Bad Request and no part of it is applied:
the stored configuration keeps both its enabled flag and its interval, and
the query log is not reconfigured. -/
theorem handleQueryLogConfig_rejects_unsupported_interval (req : qlogConfig)
    (cfg : DNSConfig) (h : checkStatsInterval req.Interval = false) :
    handleQueryLogConfig (ReqBody.valid req) cfg = ⟨400, cfg, none⟩ := by
  simp [handleQueryLogConfig, h]

/-- Witness for C9 at the unsupported interval 5. -/
theorem handleQueryLogConfig_rejects_unsupported_interval_witness :
    handleQueryLogConfig (ReqBody.valid ⟨true, 5⟩) ⟨false, 1⟩ =
      ⟨400, ⟨false, 1⟩, none⟩ :=
  handleQueryLogConfig_rejects_unsupported_interval ⟨true, 5⟩ ⟨false, 1⟩ (by decide)

/-! ### Claim C10 -/

/-- C10: a persisted entry whose timestamp lies in the future is skipped
without error by both replay and backfill even when its age is inside the
time window: the replay callback returns the recent cache unchanged, and the
backfill loop neither feeds the entry to the aggregator nor counts it into
the stats. -/
theorem future_entries_skipped (now : Int) (queryLogSize : Nat)
    (cache : List logEntry) (e : logEntry) (timeLimit : Nat) (d : dayTop)
    (es : List logEntry) (hfut : now < e.Time)
    (hwin : now - (timeLimit : Int) * 3600 ≤ e.Time) :
    fillOnEntry now queryLogSize cache e = Except.ok cache ∧
    fillStatsFromQueryLog now timeLimit d (e :: es) =
      fillStatsFromQueryLog now timeLimit d es := by
  constructor
  · unfold fillOnEntry
    by_cases hq : e.Question.length = 0
    · rw [if_pos hq]
    · rw [if_neg hq, if_pos hfut]
  · simp only [fillStatsFromQueryLog]
    rw [if_neg (not_lt.mpr hwin)]
    by_cases hq : e.Question.length = 0
    · rw [if_pos hq]
    · rw [if_neg hq, if_pos hfut]

/-- The future-timestamped entry of the C10 witness. -/
def wFutEntry : logEntry := ⟨50, [1], [], "", ⟨false⟩, 0⟩

/-- Witness for C10: a future entry inside a one-hour window. -/
theorem future_entries_skipped_witness :
    fillOnEntry 0 100 [] wFutEntry = Except.ok [] ∧
    fillStatsFromQueryLog 0 1 (dayTop.init ⟨0, []⟩ 1) (wFutEntry :: []) =
      fillStatsFromQueryLog 0 1 (dayTop.init ⟨0, []⟩ 1) [] :=
  future_entries_skipped 0 100 [] wFutEntry 1 (dayTop.init ⟨0, []⟩ 1) []
    (by decide) (by decide)

end AdGuard
